import Mathlib

/-!
Verification of the SnowAngel-UAV measurement-processing pipeline.

This file gives a shallow embedding, over exact rationals, of the numeric
core of the repository:

* the FMCW radar range axis and the FFT-to-thickness estimator of
  `webapp/backend/server.py` (`_process_fft_to_thickness`), including the
  relevant behaviour of `scipy.signal.find_peaks` (local-maxima scan with
  plateau midpoints, height filter, distance filter with magnitude
  priority, prominence with an optional `wlen` window, interpolated
  half-height widths);
* the board-side analyzer of `board/scripts/thickness_analyzer.py`
  (`ThicknessAnalyzer.analyze_fft` and `refine_peak_parabolic_log`); the
  transcendental `np.log` is a parameter of the embedding, since every
  verified property is independent of the actual logarithm;
* the reconciliation pipeline of `server.py` (`_combine_measurements`,
  `_combine_same_coordinates`), the CSV row parser (`_parse_csv_row`) and
  the provenance-linking pass (`_update_raw_measurements_with_cleaned_id`
  as used by `process_and_clean_csv`).

Python floats are modelled as exact rationals; all comparisons in the
pipeline are far from representation-boundary cases, and each concrete
input used below is integer-valued, so the rational model agrees with the
float computation on them.
-/

attribute [local semireducible] Rat.mul Rat.add Rat.sub Rat.inv

set_option maxRecDepth 1000000

namespace SnowAngel

/-! ## Radar configuration (server.py lines 60-71, thickness_analyzer.py __init__) -/

/-- SAMPLING_RATE = 80000.0 (80 kHz). -/
def samplingRate : ℚ := 80000

/-- C = 3e8, speed of light. -/
def cLight : ℚ := 300000000

/-- BW = 990e6, chirp bandwidth. -/
def chirpBW : ℚ := 990000000

/-- T_CHIRP = 1.6e-3, chirp duration. -/
def tChirp : ℚ := 16 / 10000

/-- S = BW / T_CHIRP, chirp slope. -/
def chirpSlope : ℚ := chirpBW / tChirp

/-- N_FULL = 1024. -/
def nFull : ℕ := 1024

/-- N = 512 retained magnitude bins (upper half of a symmetric spectrum). -/
def nBins : ℕ := 512

/-- BIN_SPACING = SAMPLING_RATE / N_FULL. -/
def binSpacing : ℚ := samplingRate / (nFull : ℚ)

/-- HZ_TO_M = C / (2 * S). -/
def hzToM : ℚ := cLight / (2 * chirpSlope)

/-- RANGE_AXIS[i] = i * BIN_SPACING * HZ_TO_M, range in meters of bin i. -/
def rangeAxis (i : ℕ) : ℚ := (i : ℚ) * binSpacing * hzToM

/-- The range axis in closed form: bin i sits at 5i/264 meters. -/
theorem rangeAxis_eq (i : ℕ) : rangeAxis i = 5 * (i : ℚ) / 264 := by
  unfold rangeAxis binSpacing hzToM chirpSlope samplingRate cLight chirpBW tChirp nFull
  norm_num
  ring

/-! ## np.max over a (nonempty) list -/

/-- Model of `np.max` on a magnitude vector (the sources only apply it to
nonempty vectors, for which the head-seeded fold is exactly the maximum). -/
def listMax (l : List ℚ) : ℚ := l.foldl max (l.headD 0)

/-! ## scipy.signal._peak_finding_utils._local_maxima_1d

The scan walks i from 1 to n-2; at a strict rise it searches ahead past any
plateau of equal samples; if the plateau ends in a strict drop, the plateau
midpoint is emitted and the scan resumes after the plateau.  Fuel-based
recursion mirrors the two nested while loops; the fuel (vector length) is
an upper bound on the number of iterations since the index only increases. -/

/-- Inner while loop: first index `j` with `iMax ≤ j` or `x[j] ≠ v`
(scipy: `while i_ahead < i_max and x[i_ahead] == x[i]`). -/
def plateauEnd (x : List ℚ) (iMax : ℕ) (v : ℚ) : ℕ → ℕ → ℕ
  | 0, j => j
  | fuel + 1, j => if j < iMax ∧ x.getD j 0 = v then plateauEnd x iMax v fuel (j + 1) else j

/-- Outer while loop of `_local_maxima_1d`, emitting plateau midpoints. -/
def lmScan (x : List ℚ) (iMax : ℕ) : ℕ → ℕ → List ℕ
  | 0, _ => []
  | fuel + 1, i =>
    if i < iMax then
      if x.getD (i - 1) 0 < x.getD i 0 then
        let iAhead := plateauEnd x iMax (x.getD i 0) x.length (i + 1)
        if x.getD iAhead 0 < x.getD i 0 then
          (i + (iAhead - 1)) / 2 :: lmScan x iMax fuel (iAhead + 1)
        else
          lmScan x iMax fuel (i + 1)
      else
        lmScan x iMax fuel (i + 1)
    else []

/-- All local maxima (plateau midpoints) of a magnitude vector, ascending. -/
def localMaxima (x : List ℚ) : List ℕ := lmScan x (x.length - 1) x.length 1

/-! ## scipy.signal._peak_finding_utils._select_by_peak_distance

Peaks are processed in decreasing priority (= peak height) order; a
still-kept peak removes every other peak closer than `distance` bins.
`np.argsort` leaves the relative order of equal priorities unspecified
(its default sort is unstable); the model fixes the ascending-index order
for ties.  Every property proved below only exercises distinct
priorities, where numpy's behaviour is deterministic.  scipy removes
neighbours by walking left and right while within `distance`; because the
peak list is strictly ascending this removes exactly the peaks whose
index distance is below `distance`, which is how the step is modelled. -/

/-- Distance between two bin indices. -/
def pdist (a b : ℕ) : ℕ := max a b - min a b

/-- Stable insertion into an ascending list (used to model `np.argsort`). -/
def insertOrd (le : ℕ → ℕ → Bool) (a : ℕ) : List ℕ → List ℕ
  | [] => [a]
  | b :: rest => if le a b then a :: b :: rest else b :: insertOrd le a rest

/-- Ascending stable argsort of `priority` over indices `0..n-1`. -/
def argsortAsc (priority : List ℚ) (n : ℕ) : List ℕ :=
  (List.range n).foldr
    (insertOrd (fun a b =>
      decide (priority.getD a 0 < priority.getD b 0) ||
        (decide (priority.getD a 0 = priority.getD b 0) && decide (a ≤ b)))) []

/-- One iteration of the distance-filter loop: peak (position) `j`, if
still kept, removes every other peak within `d` bins of it. -/
def sbpdStep (peaks : List ℕ) (d : ℕ) (keep : List Bool) (j : ℕ) : List Bool :=
  if keep.getD j false then
    (List.range keep.length).map fun k =>
      if k ≠ j ∧ pdist (peaks.getD k 0) (peaks.getD j 0) < d then false else keep.getD k false
  else keep

/-- `_select_by_peak_distance` : surviving peaks after the distance filter. -/
def selectByPeakDistance (peaks : List ℕ) (priority : List ℚ) (d : ℕ) : List ℕ :=
  let n := peaks.length
  let keep := ((argsortAsc priority n).reverse).foldl (sbpdStep peaks d) (List.replicate n true)
  ((List.range n).filter fun k => keep.getD k false).map fun k => peaks.getD k 0

/-! ## scipy.signal._peak_finding_utils._peak_prominences -/

/-- Left prominence scan: walk i downward while `iMin ≤ i` and
`x[i] ≤ x[peak]`, tracking the running minimum and its position. -/
def promLeft (x : List ℚ) (pv : ℚ) (iMin : ℕ) : ℕ → ℕ → ℚ × ℕ → ℚ × ℕ
  | 0, _, acc => acc
  | fuel + 1, i, (cmin, cbase) =>
    if iMin ≤ i ∧ x.getD i 0 ≤ pv then
      let acc := if x.getD i 0 < cmin then (x.getD i 0, i) else (cmin, cbase)
      if i = 0 then acc else promLeft x pv iMin fuel (i - 1) acc
    else (cmin, cbase)

/-- Right prominence scan, symmetric to `promLeft`. -/
def promRight (x : List ℚ) (pv : ℚ) (iMax : ℕ) : ℕ → ℕ → ℚ × ℕ → ℚ × ℕ
  | 0, _, acc => acc
  | fuel + 1, i, (cmin, cbase) =>
    if i ≤ iMax ∧ x.getD i 0 ≤ pv then
      let acc := if x.getD i 0 < cmin then (x.getD i 0, i) else (cmin, cbase)
      promRight x pv iMax fuel (i + 1) acc
    else (cmin, cbase)

/-- Prominence of a peak together with its left and right bases. -/
structure PromData where
  prom : ℚ
  lbase : ℕ
  rbase : ℕ
deriving DecidableEq

/-- `_peak_prominences` for one peak; `wlen` bounds the scan to
`[k - wlen/2, k + wlen/2]` when given (scipy applies it for `wlen ≥ 2`). -/
def promData (x : List ℚ) (k : ℕ) (wlen : Option ℕ) : PromData :=
  let n := x.length
  let iMin : ℕ := match wlen with | none => 0 | some w => k - w / 2
  let iMax : ℕ := match wlen with | none => n - 1 | some w => min (k + w / 2) (n - 1)
  let pv := x.getD k 0
  let left := promLeft x pv iMin (k + 1) k (pv, k)
  let right := promRight x pv iMax (n + 1) k (pv, k)
  ⟨pv - max left.1 right.1, left.2, right.2⟩

/-! ## scipy.signal._peak_finding_utils._peak_widths (rel_height = 0.5) -/

/-- Left width scan: walk i downward while `lbase < i` and `height < x[i]`. -/
def widthLeftStop (x : List ℚ) (h : ℚ) (lbase : ℕ) : ℕ → ℕ → ℕ
  | 0, i => i
  | fuel + 1, i => if lbase < i ∧ h < x.getD i 0 then widthLeftStop x h lbase fuel (i - 1) else i

/-- Right width scan: walk i upward while `i < rbase` and `height < x[i]`. -/
def widthRightStop (x : List ℚ) (h : ℚ) (rbase : ℕ) : ℕ → ℕ → ℕ
  | 0, i => i
  | fuel + 1, i => if i < rbase ∧ h < x.getD i 0 then widthRightStop x h rbase fuel (i + 1) else i

/-- Interpolated width of one peak at half prominence height. -/
def peakWidth (x : List ℚ) (k : ℕ) (pd : PromData) : ℚ :=
  let h := x.getD k 0 - pd.prom * (1 / 2)
  let li := widthLeftStop x h pd.lbase (k + 1) k
  let leftIp : ℚ :=
    if x.getD li 0 < h then (li : ℚ) + (h - x.getD li 0) / (x.getD (li + 1) 0 - x.getD li 0)
    else (li : ℚ)
  let ri := widthRightStop x h pd.rbase (x.length + 1) k
  let rightIp : ℚ :=
    if x.getD ri 0 < h then (ri : ℚ) - (h - x.getD ri 0) / (x.getD (ri - 1) 0 - x.getD ri 0)
    else (ri : ℚ)
  rightIp - leftIp

/-! ## server.py `_process_fft_to_thickness` (lines 760-823)

`find_peaks(fft_array[valid_indices], distance=2, prominence=0.003*np.max(fft_array))`:
scipy applies, in order, the local-maxima scan, the distance filter
(priority = sliced peak heights, ceil(2) = 2) and the prominence filter
(`wlen=None`, so the scan window is the whole slice).  The resulting
bin positions (already strictly ascending, see `serverPeaks_pairwise`
below, so `np.sort` is the identity) are mapped back through
`valid_indices` and truncated to the first two. -/

/-- Indices of RANGE_AXIS strictly between 0.1 m and 1 m (`np.where(valid)[0]`). -/
def validIndices : List ℕ :=
  (List.range nBins).filter fun i => decide (1 / 10 < rangeAxis i ∧ rangeAxis i < 1)

/-- The peak candidates of `_process_fft_to_thickness`: at most two window
peaks, converted back to full-vector bin indices.  The numpy slice
`fft_array[valid_indices]` raises for vectors shorter than 53; the model
reads missing entries as 0, which agrees with the source on every
non-crashing input. -/
def serverPeaks (fft : List ℚ) : List ℕ :=
  let w := validIndices.map fun i => fft.getD i 0
  let lm := localMaxima w
  let lmd := selectByPeakDistance lm (lm.map fun k => w.getD k 0) 2
  let kept := lmd.filter fun k => decide (3 / 1000 * listMax fft ≤ (promData w k none).prom)
  ((kept.map fun k => validIndices.getD k 0).take 2)

/-- `_process_fft_to_thickness`: returns `(thickness_cm, quality_score)`
or `None, None` (modelled as `Option`). -/
def processFFTToThickness (fft : List ℚ) : Option (ℚ × ℚ) :=
  if fft = [] then none
  else if validIndices = [] then none
  else
    match serverPeaks fft with
    | [p1, p2] =>
      let m1 := fft.getD p1 0
      let m2 := fft.getD p2 0
      if m1 ≤ m2 then none
      else
        let thicknessCm := (rangeAxis p2 - rangeAxis p1) * 100
        let q := if 0 < m2 then m1 / m2 else 1
        some (thicknessCm, min (q / 10) 1)
    | _ => none

/-! ## thickness_analyzer.py `refine_peak_parabolic_log` (lines 94-107)

`np.log` is transcendental and is therefore a parameter `log` of the
embedding; every property below holds for an arbitrary `log`. -/

/-- The 1e-12 offset added before taking logs. -/
def refineEps : ℚ := 1 / 10 ^ 12

/-- `refine_peak_parabolic_log(fft_data, k)`. -/
def refinePeakParabolicLog (log : ℚ → ℚ) (fft : List ℚ) (k : ℕ) : ℚ :=
  if k = 0 ∨ fft.length - 1 ≤ k then (k : ℚ)
  else
    let y1 := log (fft.getD (k - 1) 0 + refineEps)
    let y2 := log (fft.getD k 0 + refineEps)
    let y3 := log (fft.getD (k + 1) 0 + refineEps)
    let denom := y1 - 2 * y2 + y3
    if denom = 0 then (k : ℚ)
    else (k : ℚ) + 1 / 2 * (y1 - y3) / denom

/-! ## thickness_analyzer.py `analyze_fft` (lines 110-227) -/

/-- `np.ceil(30 / 1.89) = 16`: the distance parameter after scipy's ceil. -/
def boardDistance : ℕ := 16

/-- find_peaks(fft_data, distance=30/1.89, prominence=0.05*max,
height=0.02*max, width=3, wlen=80).  scipy order: local maxima, height
filter, distance filter, prominence (wlen=80), width (rel_height=0.5). -/
def findPeaksBoard (x : List ℚ) : List ℕ :=
  let mx := listMax x
  let lm := localMaxima x
  let hKept := lm.filter fun k => decide (2 / 100 * mx ≤ x.getD k 0)
  let dKept := selectByPeakDistance hKept (hKept.map fun k => x.getD k 0) boardDistance
  let withProm := dKept.map fun k => (k, promData x k (some 80))
  let pKept := withProm.filter fun kp => decide (5 / 100 * mx ≤ kp.2.prom)
  (pKept.filter fun kp => decide ((3 : ℚ) ≤ peakWidth x kp.1 kp.2)).map fun kp => kp.1

/-- Window filter step 2 of `analyze_fft`: keep peaks whose range lies in
`[min_range, max_range] = [0.35, 2.0]` (the call sites use the default
window).  The subsequent `np.sort` is the identity on this already
ascending list (`findPeaksBoard_pairwise` below). -/
def boardWindowPeaks (x : List ℚ) : List ℕ :=
  (findPeaksBoard x).filter fun k => decide (35 / 100 ≤ rangeAxis k ∧ rangeAxis k ≤ 2)

/-- Python `int()` truncation toward zero. -/
def pyInt (q : ℚ) : ℤ := if 0 ≤ q then ⌊q⌋ else ⌈q⌉

/-- Python indexing `self.range_axis[i]` on the 512-entry axis, including
negative-index wraparound; a genuinely out-of-range index raises
IndexError in the source and is modelled as 0. -/
def rangeAxisPy (i : ℤ) : ℚ :=
  if 0 ≤ i ∧ i < (nBins : ℤ) then rangeAxis i.toNat
  else if -(nBins : ℤ) ≤ i ∧ i < 0 then rangeAxis (i + (nBins : ℤ)).toNat
  else 0

/-- bin_width = range_axis[1] - range_axis[0]. -/
def binWidth : ℚ := rangeAxis 1 - rangeAxis 0

/-- self.n = 1.78, refractive index of ice. -/
def refractiveIndex : ℚ := 178 / 100

/-- The tagged rejection reasons of `analyze_fft` (the `error` strings of
the result dictionary; every error branch also zeroes the thickness). -/
inductive BoardError where
  | secondStronger
  | firstTooFar
  | outOfBand
  | onePeak
  | noPeaks
deriving DecidableEq

/-- Outcome of `analyze_fft`: either a tagged rejection, or a thickness in
meters together with the two refined ranges (`first_peak_range_m`,
`second_peak_range_m`) and the two peak bin indices of the result dict. -/
inductive BoardResult where
  | failed (e : BoardError)
  | ok (thicknessM r1 r2 : ℚ) (p1 p2 : ℕ)
deriving DecidableEq

/-- `analyze_fft(fft_data, min_range=0.35, max_range=2.0)`. -/
def analyzeFFT (log : ℚ → ℚ) (x : List ℚ) : BoardResult :=
  let peaks := boardWindowPeaks x
  if 2 ≤ peaks.length ∧ x.getD (peaks.getD 0 0) 0 < x.getD (peaks.getD 1 0) 0 then
    .failed .secondStronger
  else if 1 ≤ peaks.length ∧ 13 / 10 < rangeAxis (peaks.getD 0 0) then
    .failed .firstTooFar
  else if 2 ≤ peaks.length then
    let p1 := peaks.getD 0 0
    let p2 := peaks.getD 1 0
    let rp1 := refinePeakParabolicLog log x p1
    let rp2 := refinePeakParabolicLog log x p2
    let r1 := rangeAxisPy (pyInt rp1) + (rp1 - (⌊rp1⌋ : ℚ)) * binWidth
    let r2 := rangeAxisPy (pyInt rp2) + (rp2 - (⌊rp2⌋ : ℚ)) * binWidth
    let thickness := |r2 - r1| / refractiveIndex
    if thickness * 100 < 30 ∨ 50 < thickness * 100 then .failed .outOfBand
    else .ok thickness r1 r2 p1 p2
  else if peaks.length = 1 then .failed .onePeak
  else .failed .noPeaks

/-! ## Measurement dictionaries (server.py)

Fields mirror the measurement dicts built by `_parse_csv_row` and
enriched by the pipeline; `created_at`/`processed_at` bookkeeping times
play no role in any claim and are omitted.  Timestamps are modelled as
integers (only their order matters). -/

/-- A measurement dictionary of the server pipeline. -/
structure Measurement where
  flightId : ℕ
  timestamp : ℤ
  coords : ℚ × ℚ
  temperature : ℚ
  fftData : List ℚ
  thickness : Option ℚ := none
  qualityScore : Option ℚ := none
  rawMeasurementId : Option ℕ := none
  sourceRawIds : List ℕ := []
deriving DecidableEq, Inhabited

/-- Python `min` over a nonempty list of timestamps. -/
def listMinZ (l : List ℤ) : ℤ := l.foldl min (l.headD 0)

/-- Python `sum` over a list of rationals. -/
def listSum (l : List ℚ) : ℚ := l.foldl (· + ·) 0

/-- The element-wise FFT average of `_combine_measurements` (lines
450-467): for each index up to the longest vector, average the values of
exactly those vectors long enough to have that index.  The source's
defensive `else break` branch is unreachable (some vector always reaches
any index below the maximal length) and is not modelled. -/
def combinedFftOf (ms : List Measurement) : List ℚ :=
  let maxLength := (ms.map fun m => m.fftData.length).foldl max 0
  (List.range maxLength).map fun idx =>
    let vals := (ms.filter fun m => decide (idx < m.fftData.length)).map fun m =>
      m.fftData.getD idx 0
    listSum vals / (vals.length : ℚ)

/-- `_combine_measurements(measurements)` (lines 425-505).  The
`ValueError` on an empty input list is modelled as `none`. -/
def combineMeasurements (ms : List Measurement) : Option Measurement :=
  match ms with
  | [] => none
  | [m] => some m
  | _ =>
    let n : ℚ := (ms.length : ℚ)
    let avgLon := listSum (ms.map fun m => m.coords.1) / n
    let avgLat := listSum (ms.map fun m => m.coords.2) / n
    let avgTemp := listSum (ms.map fun m => m.temperature) / n
    let combinedFft := combinedFftOf ms
    let earliest := listMinZ (ms.map fun m => m.timestamp)
    let fid := (ms.headD default).flightId
    let base : Measurement :=
      { flightId := fid, timestamp := earliest, coords := (avgLon, avgLat),
        temperature := avgTemp, fftData := combinedFft }
    match processFFTToThickness combinedFft with
    | some (t, q) => some { base with thickness := some t, qualityScore := some q }
    | none =>
      let ts := ms.filterMap fun m => m.thickness
      let qs := ms.filterMap fun m => m.qualityScore
      if ts ≠ [] ∧ qs ≠ [] then
        some { base with
          thickness := some (listSum ts / (ts.length : ℚ)),
          qualityScore := some (listSum qs / (qs.length : ℚ)) }
      else none

/-- Insertion into the Python dict `coord_groups` keyed by the exact
coordinate pair, preserving first-seen key order and appending the
measurement to its group. -/
def groupInsert (gs : List ((ℚ × ℚ) × List Measurement)) (m : Measurement) :
    List ((ℚ × ℚ) × List Measurement) :=
  match gs with
  | [] => [(m.coords, [m])]
  | (k, g) :: rest =>
    if k = m.coords then (k, g ++ [m]) :: rest else (k, g) :: groupInsert rest m

/-- The coordinate groups of `_combine_same_coordinates` (lines 524-533). -/
def coordGroups (ms : List Measurement) : List ((ℚ × ℚ) × List Measurement) :=
  ms.foldl groupInsert []

/-- One iteration of the group loop of `_combine_same_coordinates`
(lines 540-569): a singleton group passes through tagged with its own raw
id; a larger group is merged by `_combine_measurements` and tagged with
all non-null raw ids of the group; a group whose merge returns `None` is
dropped. -/
def combineGroupStep (acc : List Measurement) (g : (ℚ × ℚ) × List Measurement) :
    List Measurement :=
  match g.2 with
  | [m] =>
    acc ++ [{ m with sourceRawIds :=
      match m.rawMeasurementId with
      | some i => [i]
      | none => [] }]
  | _ =>
    match combineMeasurements g.2 with
    | some cm =>
      acc ++ [{ cm with sourceRawIds := g.2.filterMap fun m => m.rawMeasurementId }]
    | none => acc

/-- `_combine_same_coordinates(measurements)` (lines 508-578). -/
def combineSameCoordinates (ms : List Measurement) : List Measurement :=
  (coordGroups ms).foldl combineGroupStep []

/-! ## Provenance linking (server.py lines 908-929 and 1020-1041)

The raw-measurement store is modelled as the map from raw measurement id
to its nullable `cleaned_id` column. -/

/-- `_update_raw_measurements_with_cleaned_id`: one SQL UPDATE setting
`cleaned_id` on every raw row whose id is in the list. -/
def updateRawCleanedId (store : ℕ → Option ℕ) (rawIds : List ℕ) (cleanedId : ℕ) :
    ℕ → Option ℕ :=
  fun r => if r ∈ rawIds then some cleanedId else store r

/-- The linking loop of `process_and_clean_csv`: for each cleaned id and
its provenance list (already filtered of nulls), update the raw rows; an
empty provenance list performs no update. -/
def linkProvenance (store : ℕ → Option ℕ) (batch : List (ℕ × List ℕ)) : ℕ → Option ℕ :=
  batch.foldl (fun st p => if p.2 = [] then st else updateRawCleanedId st p.2 p.1) store

/-- The `(cleaned_id, provenance)` pairs of the linking pass: cleaned ids
returned by the insert, zipped against the `_source_raw_ids` of the
combined measurements. -/
def provenanceBatch (cids : List ℕ) (cleaned : List Measurement) : List (ℕ × List ℕ) :=
  cids.zip (cleaned.map fun m => m.sourceRawIds)

/-! ## CSV row parsing (server.py `_parse_csv_row`, lines 659-712)

A raw text field is abstracted by what Python's strict converters accept:
`num q` parses as a float (`float(...)`), `time t` parses as a
`YYYY-MM-DD HH:MM:SS` timestamp (`datetime.strptime`), and `junk` parses
as neither (this includes empty strings; no string parses as both a float
and a timestamp). -/

/-- One raw CSV text field, abstracted by its parse behaviour. -/
inductive RawField where
  | num (q : ℚ)
  | time (t : ℤ)
  | junk
deriving DecidableEq

/-- Float conversion of one FFT field; failures yield `none`. -/
def fieldToNum : RawField → Option ℚ
  | .num q => some q
  | _ => none

/-- The row-level parse errors raised by `_parse_csv_row`. -/
inductive RowError where
  | tooFewColumns
  | badTimestamp
  | badCoordinates
  | badTemperature
deriving DecidableEq

/-- A parsed raw measurement row. -/
structure ParsedRow where
  flightId : ℕ
  timestamp : ℤ
  coords : ℚ × ℚ
  temperature : ℚ
  fftData : List ℚ
deriving DecidableEq

/-- `_parse_csv_row(row, flight_id)`: the four leading fields are parsed
strictly and any failure rejects the whole row; the remaining FFT fields
are parsed individually, silently dropping failures. -/
def parseCsvRow (row : List RawField) (flightId : ℕ) : Except RowError ParsedRow :=
  if row.length < 4 then .error .tooFewColumns
  else
    match row.getD 0 .junk with
    | .time t =>
      match row.getD 1 .junk, row.getD 2 .junk with
      | .num lon, .num lat =>
        match row.getD 3 .junk with
        | .num temp =>
          .ok ⟨flightId, t, (lon, lat), temp, (row.drop 4).filterMap fieldToNum⟩
        | _ => .error .badTemperature
      | _, _ => .error .badCoordinates
    | _ => .error .badTimestamp

/-- The parsing loop of `process_and_clean_csv` (lines 960-972): empty
rows are skipped and a row-level `ValueError` is logged and skipped, never
aborting the remaining batch. -/
def parseBatch (rows : List (List RawField)) (flightId : ℕ) : List ParsedRow :=
  rows.filterMap fun row =>
    if row = [] then none
    else
      match parseCsvRow row flightId with
      | .ok p => some p
      | .error _ => none

/-! ## Claim C8: the parabolic log-domain peak refiner -/

/-- C8: for every magnitude vector and index k the refiner returns k
unrefined at either end of the vector; otherwise, with y₁,y₂,y₃ the logs
of the three neighboring magnitudes (offset by ε), a zero denominator
y₁ − 2y₂ + y₃ returns k unrefined and a nonzero one returns
k + 0.5·(y₁ − y₃)/denom; in particular a symmetric window (y₁ = y₃)
yields the integer position k. -/
theorem c8_refiner_formula (log : ℚ → ℚ) (fft : List ℚ) (k : ℕ) :
    ((k = 0 ∨ fft.length - 1 ≤ k) → refinePeakParabolicLog log fft k = (k : ℚ)) ∧
    (¬(k = 0 ∨ fft.length - 1 ≤ k) →
      (log (fft.getD (k - 1) 0 + refineEps) - 2 * log (fft.getD k 0 + refineEps) +
          log (fft.getD (k + 1) 0 + refineEps) = 0 →
        refinePeakParabolicLog log fft k = (k : ℚ)) ∧
      (log (fft.getD (k - 1) 0 + refineEps) - 2 * log (fft.getD k 0 + refineEps) +
          log (fft.getD (k + 1) 0 + refineEps) ≠ 0 →
        refinePeakParabolicLog log fft k =
          (k : ℚ) + 1 / 2 *
              (log (fft.getD (k - 1) 0 + refineEps) - log (fft.getD (k + 1) 0 + refineEps)) /
            (log (fft.getD (k - 1) 0 + refineEps) - 2 * log (fft.getD k 0 + refineEps) +
              log (fft.getD (k + 1) 0 + refineEps)))) ∧
    (log (fft.getD (k - 1) 0 + refineEps) = log (fft.getD (k + 1) 0 + refineEps) →
      refinePeakParabolicLog log fft k = (k : ℚ)) := by
  refine ⟨fun h => ?_, fun h => ⟨fun hd => ?_, fun hd => ?_⟩, fun hsym => ?_⟩
  · unfold refinePeakParabolicLog
    rw [if_pos h]
  · unfold refinePeakParabolicLog
    rw [if_neg h]
    dsimp only
    rw [if_pos hd]
  · unfold refinePeakParabolicLog
    rw [if_neg h]
    dsimp only
    rw [if_neg hd]
  · unfold refinePeakParabolicLog
    by_cases h : k = 0 ∨ fft.length - 1 ≤ k
    · rw [if_pos h]
    · rw [if_neg h]
      dsimp only
      rw [hsym]
      split_ifs with hd
      · rfl
      · ring

/-- Witness for C8 at a concrete symmetric window: with `log = id`,
`fft = [1, 2, 1]` and `k = 1` the refined position is the integer 1. -/
theorem c8_refiner_formula_witness :
    refinePeakParabolicLog id [1, 2, 1] 1 = (1 : ℚ) :=
  (c8_refiner_formula id [1, 2, 1] 1).2.2 (by decide)

/-! ## Claim C1: accepted thickness formula and plausibility band
(thickness_analyzer.py `analyze_fft`, the implementation carrying the
refractive-index correction and the 30-50 cm band) -/

/-- C1: whenever the analyzer accepts a magnitude vector (returns a
thickness), that thickness equals |range₂ − range₁| divided by the
refractive index of ice, and it lies inside the plausible 30-50 cm band;
every candidate outside the band is rejected (so no out-of-band thickness
is ever returned). -/
theorem c1_thickness_formula_and_band (log : ℚ → ℚ) (x : List ℚ) (t r1 r2 : ℚ)
    (p1 p2 : ℕ) (h : analyzeFFT log x = .ok t r1 r2 p1 p2) :
    t = |r2 - r1| / refractiveIndex ∧ 30 ≤ t * 100 ∧ t * 100 ≤ 50 := by
  unfold analyzeFFT at h
  dsimp only at h
  split_ifs at h with h1 h2 h3 h4 h5
  cases h
  push_neg at h4
  exact ⟨rfl, h4.1, h4.2⟩

/-- Witness for C1: a concrete two-peak spectrum (peaks at bins 20 and 50)
accepted with thickness 625/1958 m ≈ 31.9 cm, inside the band. -/
def c1Vector : List ℚ :=
  (List.range 60).map fun i =>
    if i = 18 then 40 else if i = 19 then 80 else if i = 20 then 100
    else if i = 21 then 80 else if i = 22 then 40
    else if i = 48 then 32 else if i = 49 then 64 else if i = 50 then 80
    else if i = 51 then 64 else if i = 52 then 32 else 0

/-- Witness for C1 at `c1Vector` (with the zero log function, under which
sub-bin refinement leaves both peaks at their integer bins). -/
theorem c1_thickness_formula_and_band_witness :
    625 / 1958 = |(125 : ℚ) / 132 - 25 / 66| / refractiveIndex ∧
      30 ≤ (625 : ℚ) / 1958 * 100 ∧ (625 : ℚ) / 1958 * 100 ≤ 50 :=
  c1_thickness_formula_and_band (fun _ => 0) c1Vector (625 / 1958) (25 / 66) (125 / 132)
    20 50 (by decide)

/-! ## Claim C5: rejection on fewer than two window candidates, and the
strict peak-ordering rejection rule (thickness_analyzer.py lines 159-173) -/

/-- C5: the analyzer produces no estimate whenever fewer than two peak
candidates remain after the window filter; and with at least two
candidates the peak-ordering rule rejects exactly when the second
candidate's magnitude strictly exceeds the first's, so equal first and
second magnitudes are never rejected by this rule. -/
theorem c5_rejection_rules (log : ℚ → ℚ) (x : List ℚ) :
    ((boardWindowPeaks x).length < 2 →
      ∀ t r1 r2 p1 p2, analyzeFFT log x ≠ .ok t r1 r2 p1 p2) ∧
    (2 ≤ (boardWindowPeaks x).length →
      (analyzeFFT log x = .failed .secondStronger ↔
        x.getD ((boardWindowPeaks x).getD 0 0) 0 <
          x.getD ((boardWindowPeaks x).getD 1 0) 0)) := by
  constructor
  · intro hlen t r1 r2 p1 p2
    unfold analyzeFFT
    dsimp only
    split_ifs with h1 h2 h3 h4 h5
    · exact fun h => BoardResult.noConfusion h
    · exact fun h => BoardResult.noConfusion h
    · exact fun h => BoardResult.noConfusion h
    · omega
    · exact fun h => BoardResult.noConfusion h
    · exact fun h => BoardResult.noConfusion h
  · intro hlen
    unfold analyzeFFT
    dsimp only
    split_ifs with h1 h2 h3
    · simpa using h1.2
    · simp only [BoardResult.failed.injEq]
      constructor
      · intro he
        exact absurd he (by simp)
      · intro hx
        exact absurd ⟨hlen, hx⟩ h1
    · simp only [BoardResult.failed.injEq]
      constructor
      · intro he
        exact absurd he (by simp)
      · intro hx
        exact absurd ⟨hlen, hx⟩ h1
    · constructor
      · intro he
        exact he.elim
      · intro hx
        exact absurd ⟨hlen, hx⟩ h1

/-- Witness for C5: on an all-zero vector no candidate survives, and the
analyzer indeed never returns an estimate. -/
theorem c5_rejection_rules_witness :
    ∀ t r1 r2 p1 p2,
      analyzeFFT (fun _ => 0) (List.replicate 10 0) ≠ .ok t r1 r2 p1 p2 :=
  (c5_rejection_rules (fun _ => 0) (List.replicate 10 0)).1 (by decide)

/-! ## Claim C2: the quality score of `_process_fft_to_thickness`

The source computes `quality_score = m1/m2 if m2 > 0 else 1.0` and then
reassigns `quality_score = min(quality_score / 10.0, 1.0)`; so a zero
second magnitude yields a returned score of 0.1, not 1.0, and no lower
clamp at 0 is applied. -/

/-- C2 (amended): on every accepted input the returned quality score is
min(ratio/10, 1) where ratio is m₁/m₂ when m₂ > 0 and 1.0 otherwise; in
particular a zero second-peak magnitude yields the score 0.1 (the ratio is
treated as 1.0 only before the /10 normalization). -/
theorem c2_quality_formula (v : List ℚ) (t q : ℚ)
    (h : processFFTToThickness v = some (t, q)) :
    ∃ p1 p2, serverPeaks v = [p1, p2] ∧
      q = min ((if 0 < v.getD p2 0 then v.getD p1 0 / v.getD p2 0 else 1) / 10) 1 ∧
      (v.getD p2 0 = 0 → q = 1 / 10) := by
  unfold processFFTToThickness at h
  split_ifs at h with h1 h2
  rcases hP : serverPeaks v with _ | ⟨p1, _ | ⟨p2, _ | rest⟩⟩ <;> rw [hP] at h <;>
    dsimp only at h
  · exact Option.noConfusion h
  · exact Option.noConfusion h
  · by_cases h3 : v.getD p1 0 ≤ v.getD p2 0
    · rw [if_pos h3] at h
      exact Option.noConfusion h
    · rw [if_neg h3] at h
      cases h
      refine ⟨p1, p2, rfl, rfl, fun h0 => ?_⟩
      rw [h0]
      norm_num
  · exact Option.noConfusion h

/-- A 53-sample spectrum whose second detected peak has magnitude 0 (its
neighbours are negative); the estimator accepts it. -/
def c2Vector : List ℚ :=
  (List.range 53).map fun i => if i = 20 then 100 else if i = 30 then 0 else -10

/-- Counterexample to C2 as stated: on `c2Vector` the estimator produces
an estimate whose second peak magnitude is 0, yet the returned quality
score is 1/10, not the claimed 1.0. -/
theorem c2_counterexample :
    serverPeaks c2Vector = [20, 30] ∧ c2Vector.getD 30 0 = 0 ∧
      processFFTToThickness c2Vector = some (625 / 33, 1 / 10) ∧
      ((1 : ℚ) / 10 ≠ 1) := by
  refine ⟨by decide, by decide, by decide, by norm_num⟩

/-- Witness for C2 (amended) at the concrete accepted input `c2Vector`. -/
theorem c2_quality_formula_witness :
    ∃ p1 p2, serverPeaks c2Vector = [p1, p2] ∧
      (1 : ℚ) / 10 =
        min ((if 0 < c2Vector.getD p2 0 then c2Vector.getD p1 0 / c2Vector.getD p2 0
              else 1) / 10) 1 ∧
      (c2Vector.getD p2 0 = 0 → (1 : ℚ) / 10 = 1 / 10) :=
  c2_quality_formula c2Vector (625 / 33) (1 / 10) (by decide)

/-! ## Claim C9: row-level versus field-level parse error handling -/

/-- C9: a row with fewer than 4 leading fields, an unparsable timestamp,
or an unparsable coordinate or temperature is rejected as a whole with a
row-level error; a failing row never disturbs the rest of the batch (the
batch result is the concatenation of the results on the rows around it);
and in an accepted row each FFT field that fails numeric conversion is
dropped individually while the row is kept. -/
theorem c9_parse_error_handling (rows1 rows2 : List (List RawField))
    (row : List RawField) (fid : ℕ) :
    ((row.length < 4 ∨ (∀ t, row.getD 0 .junk ≠ .time t) ∨
        (∀ q, row.getD 1 .junk ≠ .num q) ∨ (∀ q, row.getD 2 .junk ≠ .num q) ∨
        (∀ q, row.getD 3 .junk ≠ .num q)) →
      ∃ e, parseCsvRow row fid = .error e) ∧
    ((∃ e, parseCsvRow row fid = .error e) → row ≠ [] →
      parseBatch (rows1 ++ row :: rows2) fid = parseBatch rows1 fid ++ parseBatch rows2 fid) ∧
    (∀ p, parseCsvRow row fid = .ok p →
      p.fftData = (row.drop 4).filterMap fieldToNum) := by
  refine ⟨fun hbad => ?_, fun he hne => ?_, fun p hp => ?_⟩
  · by_cases h4 : row.length < 4
    · exact ⟨.tooFewColumns, by unfold parseCsvRow; rw [if_pos h4]⟩
    · unfold parseCsvRow
      rw [if_neg h4]
      rcases h0 : row.getD 0 .junk with q0 | t0 | _
      · exact ⟨.badTimestamp, rfl⟩
      · rcases h1 : row.getD 1 .junk with q1 | t1 | _
        · rcases h2 : row.getD 2 .junk with q2 | t2 | _
          · rcases h3 : row.getD 3 .junk with q3 | t3 | _
            · rcases hbad with hbad | hbad | hbad | hbad | hbad
              · exact absurd hbad h4
              · exact absurd h0 (hbad t0)
              · exact absurd h1 (hbad q1)
              · exact absurd h2 (hbad q2)
              · exact absurd h3 (hbad q3)
            · exact ⟨.badTemperature, rfl⟩
            · exact ⟨.badTemperature, rfl⟩
          · exact ⟨.badCoordinates, rfl⟩
          · exact ⟨.badCoordinates, rfl⟩
        · exact ⟨.badCoordinates, rfl⟩
        · exact ⟨.badCoordinates, rfl⟩
      · exact ⟨.badTimestamp, rfl⟩
  · obtain ⟨e, he⟩ := he
    unfold parseBatch
    rw [List.filterMap_append, List.filterMap_cons]
    rw [if_neg hne, he]
  · unfold parseCsvRow at hp
    split_ifs at hp with h4
    · rcases h0 : row.getD 0 .junk with q0 | t0 | _ <;> rw [h0] at hp <;>
        dsimp only at hp
      · exact Except.noConfusion hp
      · rcases h1 : row.getD 1 .junk with q1 | t1 | _ <;>
          rcases h2 : row.getD 2 .junk with q2 | t2 | _ <;>
          rw [h1, h2] at hp <;> dsimp only at hp <;>
          try exact Except.noConfusion hp
        rcases h3 : row.getD 3 .junk with q3 | t3 | _ <;> rw [h3] at hp <;>
          dsimp only at hp
        · cases hp
          rfl
        · exact Except.noConfusion hp
        · exact Except.noConfusion hp
      · exact Except.noConfusion hp

/-- Witness row material for C9. -/
def c9GoodRow : List RawField :=
  [.time 100, .num 1, .num 2, .num 3, .num 4, .junk, .num 6]

/-- A malformed row (unparsable timestamp) for the C9 witness. -/
def c9BadRow : List RawField := [.junk, .num 1, .num 2, .num 3]

/-- Witness for C9: the malformed row is skipped while the rows before and
after it still parse. -/
theorem c9_parse_error_handling_witness :
    parseBatch [c9GoodRow, c9BadRow, c9GoodRow] 7 =
      parseBatch [c9GoodRow] 7 ++ parseBatch [c9GoodRow] 7 :=
  (c9_parse_error_handling [c9GoodRow] [c9GoodRow] c9BadRow 7).2.1
    ⟨.badTimestamp, rfl⟩ (by decide)

/-! ## Claim C3: reconciling a two-member group with identical vectors -/

/-- Reading a list back off by its indices reproduces the list. -/
theorem range_map_getD (l : List ℚ) :
    (List.range l.length).map (fun i => l.getD i 0) = l := by
  induction l with
  | nil => rfl
  | cons a tl ih =>
    rw [List.length_cons, List.range_succ_eq_map, List.map_cons, List.map_map]
    refine congrArg₂ _ rfl ?_
    calc (List.range tl.length).map ((fun i => (a :: tl).getD i 0) ∘ Nat.succ)
        = (List.range tl.length).map (fun i => tl.getD i 0) := by
          refine List.map_congr_left fun i _ => ?_
          simp [List.getD_cons_succ]
      _ = tl := ih

/-- Averaging two identical FFT vectors element-wise returns the vector. -/
theorem combinedFftOf_pair (m1 m2 : Measurement) (hf : m2.fftData = m1.fftData) :
    combinedFftOf [m1, m2] = m1.fftData := by
  unfold combinedFftOf
  simp only [List.map_cons, List.map_nil, List.foldl_cons, List.foldl_nil, hf]
  have hmax : max (max 0 m1.fftData.length) m1.fftData.length = m1.fftData.length := by
    omega
  rw [hmax]
  have step : ∀ i ∈ List.range m1.fftData.length,
      (let vals := (List.filter (fun m => decide (i < m.fftData.length)) [m1, m2]).map
        (fun m => m.fftData.getD i 0)
       listSum vals / (vals.length : ℚ)) = m1.fftData.getD i 0 := by
    intro i hi
    rw [List.mem_range] at hi
    have h1 : decide (i < m1.fftData.length) = true := by simpa using hi
    have h2 : decide (i < m2.fftData.length) = true := by rw [hf]; simpa using hi
    have hfil : (List.filter (fun m => decide (i < m.fftData.length)) [m1, m2])
        = [m1, m2] := by
      simp [List.filter, h1, h2]
    rw [hfil]
    dsimp [listSum]
    rw [hf]
    ring
  calc (List.range m1.fftData.length).map _
      = (List.range m1.fftData.length).map (fun i => m1.fftData.getD i 0) :=
        List.map_congr_left step
    _ = m1.fftData := range_map_getD _

/-- C3: a two-member coordinate group whose members carry identical FFT
vectors reconciles to a single cleaned measurement whose thickness equals
the thickness computed from either member's vector, and whose provenance
list is exactly the two members' raw ids. -/
theorem c3_identical_pair_reconciliation (m1 m2 : Measurement) (t q : ℚ) (i1 i2 : ℕ)
    (hc : m2.coords = m1.coords) (hf : m2.fftData = m1.fftData)
    (h1 : m1.rawMeasurementId = some i1) (h2 : m2.rawMeasurementId = some i2)
    (hp : processFFTToThickness m1.fftData = some (t, q)) :
    ∃ c, combineSameCoordinates [m1, m2] = [c] ∧ c.thickness = some t ∧
      c.sourceRawIds = [i1, i2] := by
  have hg : coordGroups [m1, m2] = [(m1.coords, [m1, m2])] := by
    unfold coordGroups
    dsimp only [List.foldl, groupInsert]
    rw [if_pos hc.symm]
    rfl
  have hcm : ∃ cm, combineMeasurements [m1, m2] = some cm ∧ cm.thickness = some t := by
    unfold combineMeasurements
    dsimp only
    rw [combinedFftOf_pair m1 m2 hf, hp]
    exact ⟨_, rfl, rfl⟩
  obtain ⟨cm, hcm, hth⟩ := hcm
  unfold combineSameCoordinates
  rw [hg]
  dsimp only [List.foldl]
  unfold combineGroupStep
  dsimp only
  rw [hcm]
  dsimp only
  refine ⟨_, rfl, ?_, ?_⟩
  · simpa using hth
  · simp [List.filterMap_cons, h1, h2]

/-- A 53-sample spectrum with peaks at bins 22 and 40, accepted by the
estimator with thickness 375/11 cm and quality 1/5. -/
def c3Vector : List ℚ :=
  (List.range 53).map fun i => if i = 22 then 80 else if i = 40 then 40 else 0

/-- First member of the C3 witness group. -/
def c3M1 : Measurement :=
  { flightId := 1, timestamp := 5, coords := (10, 20), temperature := -7,
    fftData := c3Vector, thickness := some (375 / 11), qualityScore := some (1 / 5),
    rawMeasurementId := some 1 }

/-- Second member of the C3 witness group: same coordinates and vector. -/
def c3M2 : Measurement :=
  { flightId := 1, timestamp := 6, coords := (10, 20), temperature := -9,
    fftData := c3Vector, thickness := some (375 / 11), qualityScore := some (1 / 5),
    rawMeasurementId := some 2 }

/-- Witness for C3 on the concrete two-member group. -/
theorem c3_identical_pair_reconciliation_witness :
    ∃ c, combineSameCoordinates [c3M1, c3M2] = [c] ∧ c.thickness = some (375 / 11) ∧
      c.sourceRawIds = [1, 2] :=
  c3_identical_pair_reconciliation c3M1 c3M2 (375 / 11) (1 / 5) 1 2 rfl rfl rfl rfl
    (by decide)

/-! ## Claim C6: resolution of peaks closer than the minimum spacing

scipy's distance filter processes candidates by decreasing magnitude, so
the survivor of a too-close pair is the stronger peak, not the earlier
one: the claim's left-to-right tie-breaking is refuted below. -/

/-- A 30-sample vector with local maxima at bins 10 (magnitude 50) and 18
(magnitude 100), 8 bins apart, both above the height threshold. -/
def c6Vector : List ℚ :=
  [0, 0, 0, 0, 0, 0, 0, 0, 0, 0,
   50, 0, 0, 0, 0, 10, 60, 80, 100, 80,
   60, 10, 0, 0, 0, 0, 0, 0, 0, 0]

/-- Counterexample to C6 as stated: `c6Vector` has two local maxima 8 < 16
bins apart, yet the detector keeps bin 18 — the later, higher-magnitude
candidate — and discards the earlier bin 10. -/
theorem c6_counterexample :
    localMaxima c6Vector = [10, 18] ∧ 18 - 10 < boardDistance ∧
      c6Vector.getD 10 0 < c6Vector.getD 18 0 ∧
      findPeaksBoard c6Vector = [18] := by
  refine ⟨by decide, by decide, by decide, by decide⟩

/-- C6 (amended): two candidates closer than the minimum spacing are
resolved by keeping the one with the larger magnitude — candidates are
processed in decreasing magnitude order, so the kept candidate can be the
later (higher-range) one; scan order never overrides magnitude. -/
theorem c6_distance_keeps_stronger (a b : ℕ) (pa pb : ℚ) (d : ℕ)
    (hab : a < b) (hd : b - a < d) (hne : pa ≠ pb) :
    selectByPeakDistance [a, b] [pa, pb] d = if pa < pb then [b] else [a] := by
  have hpd : pdist a b < d := by
    unfold pdist
    rw [Nat.max_eq_right hab.le, Nat.min_eq_left hab.le]
    exact hd
  have hpd2 : pdist b a < d := by
    unfold pdist
    rw [Nat.max_eq_left hab.le, Nat.min_eq_right hab.le]
    exact hd
  rcases lt_or_gt_of_ne hne with hlt | hgt
  · rw [if_pos hlt]
    unfold selectByPeakDistance argsortAsc
    dsimp only [List.length_cons, List.length_nil]
    rw [show List.range 2 = [0, 1] from rfl]
    dsimp only [List.foldr, insertOrd]
    simp only [List.getD_cons_zero, List.getD_cons_succ, decide_eq_true_eq,
      hlt, Bool.true_or, if_true, hne]
    dsimp only [List.reverse, List.reverseAux, List.foldl, sbpdStep]
    simp only [List.getD_cons_zero, List.getD_cons_succ, List.length_cons,
      List.length_nil, List.replicate]
    rw [show List.range 2 = [0, 1] from rfl]
    simp [hpd, hab.ne, hpd2]
  · rw [if_neg (not_lt_of_gt hgt)]
    unfold selectByPeakDistance argsortAsc
    dsimp only [List.length_cons, List.length_nil]
    rw [show List.range 2 = [0, 1] from rfl]
    dsimp only [List.foldr, insertOrd]
    simp only [List.getD_cons_zero, List.getD_cons_succ, decide_eq_true_eq,
      not_lt_of_gt hgt, hne, Bool.false_or, Bool.false_and,
      if_false]
    dsimp only [List.reverse, List.reverseAux, List.foldl, sbpdStep]
    simp only [List.getD_cons_zero, List.getD_cons_succ, List.length_cons,
      List.length_nil, List.replicate]
    rw [show List.range 2 = [0, 1] from rfl]
    simp [hpd, hab.ne, hpd2]

/-- Witness for C6 (amended): bins 3 and 9, six bins apart with spacing 16,
priorities 5 < 7 — the stronger, later bin 9 survives. -/
theorem c6_distance_keeps_stronger_witness :
    selectByPeakDistance [3, 9] [5, 7] 16 = [9] := by
  have h := c6_distance_keeps_stronger 3 9 5 7 16 (by norm_num) (by norm_num)
    (by norm_num)
  simpa using h


/-! ## Claim C10: positivity of every returned thickness -/

/-- The plateau scan never moves left. -/
theorem plateauEnd_ge (x : List ℚ) (iMax : ℕ) (v : ℚ) :
    ∀ fuel j, j ≤ plateauEnd x iMax v fuel j := by
  intro fuel
  induction fuel with
  | zero => intro j; simp [plateauEnd]
  | succ fuel ih =>
    intro j
    rw [plateauEnd]
    split_ifs with h
    · exact le_trans (Nat.le_succ j) (ih (j + 1))
    · exact le_refl j

/-- The plateau scan never passes the right scan bound. -/
theorem plateauEnd_le (x : List ℚ) (iMax : ℕ) (v : ℚ) :
    ∀ fuel j, j ≤ iMax → plateauEnd x iMax v fuel j ≤ iMax := by
  intro fuel
  induction fuel with
  | zero => intro j hj; simpa [plateauEnd] using hj
  | succ fuel ih =>
    intro j hj
    rw [plateauEnd]
    split_ifs with h
    · exact ih (j + 1) h.1
    · exact hj

/-- Every emitted local maximum lies at or after the scan position. -/
theorem lmScan_lb (x : List ℚ) (iMax : ℕ) :
    ∀ fuel i, ∀ m ∈ lmScan x iMax fuel i, i ≤ m := by
  intro fuel
  induction fuel with
  | zero => intro i m hm; simp [lmScan] at hm
  | succ fuel ih =>
    intro i m hm
    rw [lmScan] at hm
    dsimp only at hm
    split_ifs at hm with h1 h2 h3
    · rcases List.mem_cons.mp hm with rfl | hm
      · have hge := plateauEnd_ge x iMax (x.getD i 0) x.length (i + 1)
        omega
      · have := ih _ _ hm
        have hge := plateauEnd_ge x iMax (x.getD i 0) x.length (i + 1)
        omega
    · have := ih _ _ hm
      omega
    · have := ih _ _ hm
      omega
    · simp at hm

/-- Every emitted local maximum lies strictly before the scan bound. -/
theorem lmScan_ub (x : List ℚ) (iMax : ℕ) :
    ∀ fuel i, ∀ m ∈ lmScan x iMax fuel i, m < iMax := by
  intro fuel
  induction fuel with
  | zero => intro i m hm; simp [lmScan] at hm
  | succ fuel ih =>
    intro i m hm
    rw [lmScan] at hm
    dsimp only at hm
    split_ifs at hm with h1 h2 h3
    · rcases List.mem_cons.mp hm with rfl | hm
      · have hge := plateauEnd_ge x iMax (x.getD i 0) x.length (i + 1)
        have hle := plateauEnd_le x iMax (x.getD i 0) x.length (i + 1) h1
        omega
      · exact ih _ _ hm
    · exact ih _ _ hm
    · exact ih _ _ hm
    · simp at hm

/-- Emitted local maxima are strictly ascending, at least two bins apart. -/
theorem lmScan_pairwise (x : List ℚ) (iMax : ℕ) :
    ∀ fuel i, (lmScan x iMax fuel i).Pairwise (fun p q => p + 2 ≤ q) := by
  intro fuel
  induction fuel with
  | zero => intro i; simp [lmScan]
  | succ fuel ih =>
    intro i
    rw [lmScan]
    dsimp only
    split_ifs with h1 h2 h3
    · refine List.Pairwise.cons ?_ (ih _)
      intro q hq
      have hlb := lmScan_lb x iMax fuel _ q hq
      have hge := plateauEnd_ge x iMax (x.getD i 0) x.length (i + 1)
      omega
    · exact ih _
    · exact ih _
    · exact List.Pairwise.nil

/-- Local maxima of a vector are ascending with gaps of at least two bins. -/
theorem localMaxima_pairwise (x : List ℚ) :
    (localMaxima x).Pairwise (fun p q => p + 2 ≤ q) :=
  lmScan_pairwise x (x.length - 1) x.length 1

/-- Local maxima lie strictly inside the vector. -/
theorem localMaxima_ub (x : List ℚ) (m : ℕ) (hm : m ∈ localMaxima x) :
    m < x.length - 1 :=
  lmScan_ub x (x.length - 1) x.length 1 m hm

/-- Reading a pairwise-related list at an ascending in-bounds index list
preserves the pairwise relation. -/
theorem pairwise_getD_map {R : ℕ → ℕ → Prop} (peaks : List ℕ) (hp : peaks.Pairwise R)
    (idxs : List ℕ) (hs : idxs.Pairwise (· < ·))
    (hb : ∀ i ∈ idxs, i < peaks.length) :
    (idxs.map fun i => peaks.getD i 0).Pairwise R := by
  rw [List.pairwise_map]
  refine hs.imp_of_mem ?_
  intro a b ha hb'
  intro hab
  have hA := hb a ha
  have hB := hb b hb'
  have := List.pairwise_iff_getElem.mp hp a b hA hB hab
  rwa [List.getD_eq_getElem peaks 0 hA, List.getD_eq_getElem peaks 0 hB]

/-- The distance filter preserves any pairwise relation on the peak list. -/
theorem select_pairwise {R : ℕ → ℕ → Prop} (peaks : List ℕ) (priority : List ℚ)
    (d : ℕ) (hp : peaks.Pairwise R) :
    (selectByPeakDistance peaks priority d).Pairwise R := by
  unfold selectByPeakDistance
  dsimp only
  refine pairwise_getD_map peaks hp _ ?_ ?_
  · exact (List.pairwise_lt_range _).filter _
  · intro i hi
    exact List.mem_range.mp (List.mem_of_mem_filter hi)

/-- The distance filter only returns members of the peak list. -/
theorem select_subset (peaks : List ℕ) (priority : List ℚ) (d : ℕ) (m : ℕ)
    (hm : m ∈ selectByPeakDistance peaks priority d) : m ∈ peaks := by
  unfold selectByPeakDistance at hm
  dsimp only at hm
  obtain ⟨k, hk, rfl⟩ := List.mem_map.mp hm
  have hkn : k < peaks.length := List.mem_range.mp (List.mem_of_mem_filter hk)
  rw [List.getD_eq_getElem peaks 0 hkn]
  exact List.getElem_mem hkn

/-- The valid range window is the 47 consecutive bins 6..52. -/
theorem validIndices_getD (k : ℕ) (hk : k < 47) :
    validIndices.getD k 0 = k + 6 := by
  have he : validIndices = (List.range 47).map (fun k => k + 6) := by decide
  rw [he]
  have hlen : k < ((List.range 47).map (fun k => k + 6)).length := by
    simpa using hk
  rw [List.getD_eq_getElem _ 0 hlen]
  simp

/-- The candidate bins of the server estimator are strictly ascending with
gaps of at least two bins (in particular `np.sort` in the source is the
identity on them). -/
theorem serverPeaks_pairwise (fft : List ℚ) :
    (serverPeaks fft).Pairwise (fun p q => p + 2 ≤ q) := by
  unfold serverPeaks
  dsimp only
  set w := validIndices.map fun i => fft.getD i 0 with hw
  have hwlen : w.length = 47 := by rw [hw, List.length_map]; decide
  have hlm : (localMaxima w).Pairwise (fun p q => p + 2 ≤ q) := localMaxima_pairwise w
  have hsel : (selectByPeakDistance (localMaxima w)
      ((localMaxima w).map fun k => w.getD k 0) 2).Pairwise (fun p q => p + 2 ≤ q) :=
    select_pairwise (localMaxima w) ((localMaxima w).map fun k => w.getD k 0) 2 hlm
  have hkept := hsel.filter
    (fun k => decide (3 / 1000 * listMax fft ≤ (promData w k none).prom))
  refine List.Pairwise.sublist (List.take_sublist 2 _) ?_
  have hmem : ∀ k ∈ (selectByPeakDistance (localMaxima w)
      ((localMaxima w).map fun k => w.getD k 0) 2).filter
        (fun k => decide (3 / 1000 * listMax fft ≤ (promData w k none).prom)),
      k < 47 := by
    intro k hk
    have h1 : k ∈ selectByPeakDistance (localMaxima w) _ 2 :=
      List.mem_of_mem_filter hk
    have h2 : k ∈ localMaxima w := select_subset _ _ _ _ h1
    have := localMaxima_ub w k h2
    omega
  rw [List.pairwise_map]
  refine hkept.imp_of_mem ?_
  intro a b ha hb hab
  rw [validIndices_getD a (hmem a ha), validIndices_getD b (hmem b hb)]
  omega


/-- C10: whenever the estimator returns a (thickness, quality) pair, the
two peaks used are in strictly increasing bin order at least two bins
apart, and the returned thickness is strictly positive. -/
theorem c10_thickness_positive (v : List ℚ) (t q : ℚ)
    (h : processFFTToThickness v = some (t, q)) :
    (∃ p1 p2, serverPeaks v = [p1, p2] ∧ p1 + 2 ≤ p2) ∧ 0 < t := by
  unfold processFFTToThickness at h
  split_ifs at h with h1 h2
  rcases hP : serverPeaks v with _ | ⟨p1, _ | ⟨p2, _ | rest⟩⟩ <;> rw [hP] at h <;>
    dsimp only at h
  · exact Option.noConfusion h
  · exact Option.noConfusion h
  · by_cases h3 : v.getD p1 0 ≤ v.getD p2 0
    · rw [if_pos h3] at h
      exact Option.noConfusion h
    · rw [if_neg h3] at h
      cases h
      have hpw := serverPeaks_pairwise v
      rw [hP] at hpw
      have hgap : p1 + 2 ≤ p2 := (List.pairwise_cons.mp hpw).1 p2 (by simp)
      refine ⟨⟨p1, p2, rfl, hgap⟩, ?_⟩
      rw [rangeAxis_eq, rangeAxis_eq]
      have hc : (p1 : ℚ) < (p2 : ℚ) := by exact_mod_cast (by omega : p1 < p2)
      nlinarith [hc]
  · exact Option.noConfusion h

/-- A 53-sample spectrum with peaks at bins 20 and 30, accepted by the
estimator. -/
def c10Vector : List ℚ :=
  (List.range 53).map fun i => if i = 20 then 100 else if i = 30 then 50 else 0

/-- Witness for C10 at the concrete accepted input `c10Vector`. -/
theorem c10_thickness_positive_witness :
    (∃ p1 p2, serverPeaks c10Vector = [p1, p2] ∧ p1 + 2 ≤ p2) ∧ 0 < (625 : ℚ) / 33 :=
  c10_thickness_positive c10Vector (625 / 33) (1 / 5) (by decide)


/-! ## Claim C7: the provenance-linking round trip -/

/-- Raw rows mentioned in no provenance list keep their stored reference. -/
theorem linkProvenance_unchanged (batch : List (ℕ × List ℕ)) :
    ∀ (store : ℕ → Option ℕ) (r : ℕ), (∀ p ∈ batch, r ∉ p.2) →
      linkProvenance store batch r = store r := by
  induction batch with
  | nil => intro store r _; rfl
  | cons p rest ih =>
    intro store r hr
    have hstep : (if p.2 = [] then store else updateRawCleanedId store p.2 p.1) r
        = store r := by
      split_ifs with hp
      · rfl
      · unfold updateRawCleanedId
        rw [if_neg (hr p (List.mem_cons_self p rest))]
    calc linkProvenance store (p :: rest) r
        = linkProvenance (if p.2 = [] then store else updateRawCleanedId store p.2 p.1)
            rest r := rfl
      _ = (if p.2 = [] then store else updateRawCleanedId store p.2 p.1) r :=
          ih _ r (fun q hq => hr q (List.mem_cons_of_mem p hq))
      _ = store r := hstep

/-- The linking pass never nulls a reference: a null reference after the
pass was null before it, and its row is in no provenance list. -/
theorem linkProvenance_none (batch : List (ℕ × List ℕ)) :
    ∀ (store : ℕ → Option ℕ) (r : ℕ), linkProvenance store batch r = none →
      store r = none ∧ ∀ p ∈ batch, r ∉ p.2 := by
  induction batch with
  | nil => intro store r h; exact ⟨h, by simp⟩
  | cons p rest ih =>
    intro store r h
    obtain ⟨hs, hrest⟩ := ih _ r h
    dsimp only at hs
    by_cases hp : p.2 = []
    · rw [if_pos hp] at hs
      refine ⟨hs, fun q hq => ?_⟩
      rcases List.mem_cons.mp hq with rfl | hq
      · rw [hp]; simp
      · exact hrest q hq
    · rw [if_neg hp] at hs
      unfold updateRawCleanedId at hs
      by_cases hr : r ∈ p.2
      · rw [if_pos hr] at hs
        exact Option.noConfusion hs
      · rw [if_neg hr] at hs
        refine ⟨hs, fun q hq => ?_⟩
        rcases List.mem_cons.mp hq with rfl | hq
        · exact hr
        · exact hrest q hq

/-- With pairwise-disjoint provenance lists, the pass points every listed
raw row at its cleaned id. -/
theorem linkProvenance_sets (batch : List (ℕ × List ℕ)) :
    batch.Pairwise (fun p q' => ∀ r ∈ p.2, r ∉ q'.2) →
    ∀ (store : ℕ → Option ℕ) (p : ℕ × List ℕ), p ∈ batch → ∀ r ∈ p.2,
      linkProvenance store batch r = some p.1 := by
  induction batch with
  | nil => intro _ store p hp; simp at hp
  | cons q rest ih =>
    intro hdisj store p hp r hr
    obtain ⟨hq, hrest⟩ := List.pairwise_cons.mp hdisj
    rcases List.mem_cons.mp hp with rfl | hp
    · have hne : p.2 ≠ [] := List.ne_nil_of_mem hr
      calc linkProvenance store (p :: rest) r
          = linkProvenance (if p.2 = [] then store else updateRawCleanedId store p.2 p.1)
              rest r := rfl
        _ = (if p.2 = [] then store else updateRawCleanedId store p.2 p.1) r :=
            linkProvenance_unchanged rest _ r (fun q' hq' => hq q' hq' r hr)
        _ = some p.1 := by
            rw [if_neg hne]
            unfold updateRawCleanedId
            rw [if_pos hr]
    · exact ih hrest _ p hp r hr

/-- A pairwise relation on the second components survives zipping. -/
theorem pairwise_zip_snd {α β : Type} {R : β → β → Prop} :
    ∀ (as : List α) (bs : List β), bs.Pairwise R →
      (as.zip bs).Pairwise fun p q => R p.2 q.2 := by
  intro as
  induction as with
  | nil => intro bs _; simp
  | cons a as ih =>
    intro bs hbs
    cases bs with
    | nil => simp
    | cons b bs =>
      obtain ⟨hb, hbs'⟩ := List.pairwise_cons.mp hbs
      rw [List.zip_cons_cons]
      refine List.Pairwise.cons ?_ (ih bs hbs')
      intro q hq
      exact hb q.2 (List.of_mem_zip hq).2

/-- Inserting a measurement into the coordinate groups adds exactly that
measurement to the multiset of all group members. -/
theorem groupInsert_flatten_perm (m : Measurement) :
    ∀ gs : List ((ℚ × ℚ) × List Measurement),
      ((groupInsert gs m).map fun g => g.2).flatten.Perm
        (((gs.map fun g => g.2).flatten) ++ [m]) := by
  intro gs
  induction gs with
  | nil => simp [groupInsert]
  | cons g rest ih =>
    rcases g with ⟨k, grp⟩
    unfold groupInsert
    split_ifs with hk
    · simp only [List.map_cons, List.flatten_cons]
      have h2 := List.Perm.append_left grp
        (@List.perm_append_comm _ [m] ((rest.map fun g => g.2).flatten))
      rw [← List.append_assoc, ← List.append_assoc] at h2
      exact h2
    · simp only [List.map_cons, List.flatten_cons]
      have h2 := List.Perm.append_left grp ih
      rw [← List.append_assoc] at h2
      exact h2

/-- The coordinate groups partition the input measurements: their members,
concatenated, are a permutation of the input. -/
theorem coordGroups_flatten_perm :
    ∀ (ms : List Measurement) (gs : List ((ℚ × ℚ) × List Measurement)),
      ((List.foldl groupInsert gs ms).map fun g => g.2).flatten.Perm
        (((gs.map fun g => g.2).flatten) ++ ms) := by
  intro ms
  induction ms with
  | nil => intro gs; simp
  | cons m rest ih =>
    intro gs
    dsimp only [List.foldl]
    have h1 := ih (groupInsert gs m)
    have h2 := (groupInsert_flatten_perm m gs).append_right rest
    have h3 := h1.trans h2
    rw [List.append_assoc, List.singleton_append] at h3
    exact h3

/-- filterMap distributes over flattening. -/
theorem flatten_map_filterMap (f : Measurement → Option ℕ) :
    ∀ L : List (List Measurement),
      (L.map fun l => l.filterMap f).flatten = L.flatten.filterMap f := by
  intro L
  induction L with
  | nil => rfl
  | cons l rest ih =>
    rw [List.map_cons, List.flatten_cons, List.flatten_cons, List.filterMap_append, ih]

/-- With globally distinct raw ids, the id lists of distinct coordinate
groups are pairwise disjoint. -/
theorem coordGroups_ids_disjoint (ms : List Measurement)
    (hnd : (ms.filterMap fun m => m.rawMeasurementId).Nodup) :
    ((coordGroups ms).map fun g => g.2.filterMap fun m => m.rawMeasurementId).Pairwise
      List.Disjoint := by
  have hperm : ((coordGroups ms).map fun g => g.2).flatten.Perm ms := by
    simpa using coordGroups_flatten_perm ms []
  have hperm2 := hperm.filterMap (fun m => m.rawMeasurementId)
  have hnd2 : (((coordGroups ms).map fun g => g.2).flatten.filterMap
      fun m => m.rawMeasurementId).Nodup := hperm2.nodup_iff.mpr hnd
  rw [← flatten_map_filterMap] at hnd2
  rw [List.map_map] at hnd2
  have h3 := (List.nodup_flatten.mp hnd2).2
  simpa [Function.comp] using h3


/-- One reconciliation step either drops its group or appends a cleaned
measurement whose provenance is exactly the group's non-null raw ids. -/
theorem combineGroupStep_ids (acc : List Measurement) (g : (ℚ × ℚ) × List Measurement) :
    (combineGroupStep acc g).map (fun m => m.sourceRawIds) =
        acc.map (fun m => m.sourceRawIds) ∨
    (combineGroupStep acc g).map (fun m => m.sourceRawIds) =
        acc.map (fun m => m.sourceRawIds) ++ [g.2.filterMap fun m => m.rawMeasurementId] := by
  unfold combineGroupStep
  rcases hg : g.2 with _ | ⟨m, _ | ⟨m2, tl⟩⟩
  · left
    rfl
  · right
    rw [List.map_append]
    rcases hm : m.rawMeasurementId with _ | i <;>
      simp [List.filterMap, hm]
  · rcases hc : combineMeasurements (m :: m2 :: tl) with _ | cm
    · left
      rfl
    · right
      rw [List.map_append]
      rfl


/-- The provenance lists of the reconciler's output form a sublist of the
groups' id lists. -/
theorem combineSameCoordinates_ids_sublist (ms : List Measurement) :
    ((combineSameCoordinates ms).map fun m => m.sourceRawIds).Sublist
      ((coordGroups ms).map fun g => g.2.filterMap fun m => m.rawMeasurementId) := by
  suffices h : ∀ (L : List ((ℚ × ℚ) × List Measurement)) (acc : List Measurement),
      ((L.foldl combineGroupStep acc).map fun m => m.sourceRawIds).Sublist
        ((acc.map fun m => m.sourceRawIds) ++
          (L.map fun g => g.2.filterMap fun m => m.rawMeasurementId)) by
    simpa [combineSameCoordinates] using h (coordGroups ms) []
  intro L
  induction L with
  | nil => intro acc; simp
  | cons g rest ih =>
    intro acc
    dsimp only [List.foldl, List.map_cons]
    refine (ih (combineGroupStep acc g)).trans ?_
    rcases combineGroupStep_ids acc g with he | he <;> rw [he]
    · exact List.Sublist.append_left (List.sublist_cons_self _ _) _
    · rw [List.append_assoc]
      exact List.Sublist.refl _

/-- C7: after the provenance-linking pass runs over the batch produced by
the reconciler (raw ids being distinct, as database-assigned ids are),
every raw id in a cleaned record's provenance list has its stored
cleaned-reference equal to that cleaned record's id, and every raw row
whose reference is null appears in no provenance list. -/
theorem c7_provenance_roundtrip (ms : List Measurement) (store : ℕ → Option ℕ) (cids : List ℕ)
    (hnd : (ms.filterMap fun m => m.rawMeasurementId).Nodup) :
    (∀ p ∈ provenanceBatch cids (combineSameCoordinates ms), ∀ r ∈ p.2,
      linkProvenance store (provenanceBatch cids (combineSameCoordinates ms)) r
        = some p.1) ∧
    (∀ r, linkProvenance store (provenanceBatch cids (combineSameCoordinates ms)) r
        = none →
      ∀ p ∈ provenanceBatch cids (combineSameCoordinates ms), r ∉ p.2) := by
  constructor
  · intro p hp r hr
    refine linkProvenance_sets _ ?_ store p hp r hr
    have hout := List.Pairwise.sublist (combineSameCoordinates_ids_sublist ms)
      (coordGroups_ids_disjoint ms hnd)
    have hzip := pairwise_zip_snd cids _ hout
    unfold provenanceBatch
    exact hzip.imp (fun hd => fun r' hr' => hd hr')
  · intro r hnone p hp
    exact (linkProvenance_none _ store r hnone).2 p hp

/-- C7 witness measurement: first member of a two-member group. -/
def c7A : Measurement :=
  { flightId := 1, timestamp := 0, coords := (1, 2), temperature := 0, fftData := [],
    thickness := some 40, qualityScore := some (1 / 2), rawMeasurementId := some 1 }

/-- C7 witness measurement: second member of the group at (1, 2). -/
def c7B : Measurement :=
  { flightId := 1, timestamp := 1, coords := (1, 2), temperature := 0, fftData := [],
    thickness := some 44, qualityScore := some (3 / 4), rawMeasurementId := some 2 }

/-- C7 witness measurement: a singleton group at (3, 4). -/
def c7C : Measurement :=
  { flightId := 1, timestamp := 2, coords := (3, 4), temperature := 0, fftData := [],
    thickness := some 50, qualityScore := some 1, rawMeasurementId := some 3 }

/-- Witness for C7: on a concrete three-measurement batch, raw row 1 ends
up pointing at cleaned id 100. -/
theorem c7_provenance_roundtrip_witness :
    linkProvenance (fun _ => none)
      (provenanceBatch [100, 200] (combineSameCoordinates [c7A, c7B, c7C])) 1
      = some 100 := by
  have hb : provenanceBatch [100, 200] (combineSameCoordinates [c7A, c7B, c7C])
      = [(100, [1, 2]), (200, [3])] := by decide
  have h := (c7_provenance_roundtrip [c7A, c7B, c7C] (fun _ => none) [100, 200] (by decide)).1
    (100, [1, 2]) (by rw [hb]; simp) 1 (by simp)
  exact h


/-! ## Claim C4: invariance under uniform positive scaling -/

/-- Reading a uniformly scaled vector scales the read value. -/
theorem getD_map_mul (c : ℚ) : ∀ (v : List ℚ) (i : ℕ),
    (v.map fun a => c * a).getD i 0 = c * v.getD i 0
  | [], i => by simp
  | a :: tl, 0 => by simp
  | a :: tl, i + 1 => by simpa using getD_map_mul c tl i

/-- The head default of a scaled vector is the scaled head default. -/
theorem headD_map_mul (c : ℚ) (v : List ℚ) :
    (v.map fun a => c * a).headD 0 = c * v.headD 0 := by
  cases v <;> simp

/-- A running maximum commutes with scaling by a nonnegative factor. -/
theorem foldl_max_map_mul (c : ℚ) (hc : 0 ≤ c) :
    ∀ (v : List ℚ) (a : ℚ), (v.map fun x => c * x).foldl max (c * a) = c * v.foldl max a := by
  intro v
  induction v with
  | nil => intro a; rfl
  | cons b tl ih =>
    intro a
    rw [List.map_cons, List.foldl_cons, List.foldl_cons]
    rw [← mul_max_of_nonneg _ _ hc]
    exact ih (max a b)

/-- np.max commutes with scaling by a nonnegative factor. -/
theorem listMax_map_mul (c : ℚ) (hc : 0 ≤ c) (v : List ℚ) :
    listMax (v.map fun a => c * a) = c * listMax v := by
  unfold listMax
  rw [headD_map_mul, foldl_max_map_mul c hc]

/-- The plateau scan is invariant under positive uniform scaling. -/
theorem plateauEnd_map_mul (c : ℚ) (hc : 0 < c) (x : List ℚ) (iMax : ℕ) (v : ℚ) :
    ∀ fuel j, plateauEnd (x.map fun a => c * a) iMax (c * v) fuel j
      = plateauEnd x iMax v fuel j := by
  intro fuel
  induction fuel with
  | zero => intro j; rfl
  | succ fuel ih =>
    intro j
    rw [plateauEnd, plateauEnd]
    by_cases h : j < iMax ∧ x.getD j 0 = v
    · rw [if_pos h, if_pos (show j < iMax ∧ (x.map fun a => c * a).getD j 0 = c * v from
        ⟨h.1, by rw [getD_map_mul, h.2]⟩)]
      exact ih (j + 1)
    · rw [if_neg h, if_neg ?_]
      intro hcon
      refine h ⟨hcon.1, ?_⟩
      have h2 := hcon.2
      rw [getD_map_mul] at h2
      exact mul_left_cancel₀ hc.ne' h2

/-- The local-maxima scan is invariant under positive uniform scaling. -/
theorem lmScan_map_mul (c : ℚ) (hc : 0 < c) (x : List ℚ) (iMax : ℕ) :
    ∀ fuel i, lmScan (x.map fun a => c * a) iMax fuel i = lmScan x iMax fuel i := by
  intro fuel
  induction fuel with
  | zero => intro i; rfl
  | succ fuel ih =>
    intro i
    rw [lmScan, lmScan]
    dsimp only
    simp only [List.length_map, getD_map_mul, plateauEnd_map_mul c hc, mul_lt_mul_left hc]
    split_ifs with h1 h2 h3
    · rw [ih]
    · exact ih _
    · exact ih _
    · rfl

/-- Local maxima are invariant under positive uniform scaling. -/
theorem localMaxima_map_mul (c : ℚ) (hc : 0 < c) (x : List ℚ) :
    localMaxima (x.map fun a => c * a) = localMaxima x := by
  unfold localMaxima
  rw [List.length_map, lmScan_map_mul c hc]

/-- The priority argsort is invariant under positive uniform scaling. -/
theorem argsortAsc_map_mul (c : ℚ) (hc : 0 < c) (p : List ℚ) (n : ℕ) :
    argsortAsc (p.map fun a => c * a) n = argsortAsc p n := by
  unfold argsortAsc
  have hle : (fun a b => decide ((p.map fun x => c * x).getD a 0
        < (p.map fun x => c * x).getD b 0) ||
      (decide ((p.map fun x => c * x).getD a 0 = (p.map fun x => c * x).getD b 0) &&
        decide (a ≤ b)))
      = (fun a b => decide (p.getD a 0 < p.getD b 0) ||
          (decide (p.getD a 0 = p.getD b 0) && decide (a ≤ b))) := by
    funext a b
    simp only [getD_map_mul, mul_lt_mul_left hc, mul_right_inj' hc.ne']
  rw [hle]

/-- The distance filter is invariant under positive scaling of priorities. -/
theorem select_map_mul (c : ℚ) (hc : 0 < c) (peaks : List ℕ) (p : List ℚ) (d : ℕ) :
    selectByPeakDistance peaks (p.map fun a => c * a) d = selectByPeakDistance peaks p d := by
  unfold selectByPeakDistance
  dsimp only
  rw [argsortAsc_map_mul c hc]


/-- The left prominence scan commutes with positive uniform scaling. -/
theorem promLeft_map_mul (c : ℚ) (hc : 0 < c) (x : List ℚ) (pv : ℚ) (iMin : ℕ) :
    ∀ fuel i cmin cbase,
      promLeft (x.map fun a => c * a) (c * pv) iMin fuel i (c * cmin, cbase)
        = (c * (promLeft x pv iMin fuel i (cmin, cbase)).1,
           (promLeft x pv iMin fuel i (cmin, cbase)).2) := by
  intro fuel
  induction fuel with
  | zero => intro i cmin cbase; rfl
  | succ fuel ih =>
    intro i cmin cbase
    rw [promLeft, promLeft]
    dsimp only
    simp only [getD_map_mul, mul_le_mul_left hc, mul_lt_mul_left hc]
    split_ifs with h1 h2 h3 h3
    · rfl
    · rfl
    · exact ih (i - 1) (x.getD i 0) i
    · exact ih (i - 1) cmin cbase
    · rfl

/-- The right prominence scan commutes with positive uniform scaling. -/
theorem promRight_map_mul (c : ℚ) (hc : 0 < c) (x : List ℚ) (pv : ℚ) (iMax : ℕ) :
    ∀ fuel i cmin cbase,
      promRight (x.map fun a => c * a) (c * pv) iMax fuel i (c * cmin, cbase)
        = (c * (promRight x pv iMax fuel i (cmin, cbase)).1,
           (promRight x pv iMax fuel i (cmin, cbase)).2) := by
  intro fuel
  induction fuel with
  | zero => intro i cmin cbase; rfl
  | succ fuel ih =>
    intro i cmin cbase
    rw [promRight, promRight]
    dsimp only
    simp only [getD_map_mul, mul_le_mul_left hc, mul_lt_mul_left hc]
    split_ifs with h1 h2
    · exact ih (i + 1) (x.getD i 0) i
    · exact ih (i + 1) cmin cbase
    · rfl

/-- Prominences scale linearly; bases are unchanged. -/
theorem promData_map_mul (c : ℚ) (hc : 0 < c) (x : List ℚ) (k : ℕ) (wlen : Option ℕ) :
    promData (x.map fun a => c * a) k wlen
      = ⟨c * (promData x k wlen).prom, (promData x k wlen).lbase,
         (promData x k wlen).rbase⟩ := by
  unfold promData
  dsimp only
  rw [List.length_map, getD_map_mul, promLeft_map_mul c hc, promRight_map_mul c hc]
  dsimp only
  rw [← mul_max_of_nonneg _ _ hc.le, ← mul_sub]

/-- The estimator's peak candidates are invariant under positive scaling. -/
theorem serverPeaks_map_mul (c : ℚ) (hc : 0 < c) (v : List ℚ) :
    serverPeaks (v.map fun a => c * a) = serverPeaks v := by
  unfold serverPeaks
  dsimp only
  have hw : (validIndices.map fun i => (v.map fun a => c * a).getD i 0)
      = ((validIndices.map fun i => v.getD i 0).map fun a => c * a) :=
    Eq.trans (List.map_congr_left fun i _ => getD_map_mul c v i)
      (List.map_map _ _ _).symm
  rw [hw]
  rw [localMaxima_map_mul c hc]
  have hpr : ((localMaxima (validIndices.map fun i => v.getD i 0)).map fun k =>
        ((validIndices.map fun i => v.getD i 0).map fun a => c * a).getD k 0)
      = (((localMaxima (validIndices.map fun i => v.getD i 0)).map fun k =>
          (validIndices.map fun i => v.getD i 0).getD k 0).map fun a => c * a) :=
    Eq.trans (List.map_congr_left fun k _ =>
        getD_map_mul c (validIndices.map fun i => v.getD i 0) k)
      (List.map_map _ _ _).symm
  rw [hpr, select_map_mul c hc]
  have hfil : (selectByPeakDistance (localMaxima (validIndices.map fun i => v.getD i 0))
        ((localMaxima (validIndices.map fun i => v.getD i 0)).map fun k =>
          (validIndices.map fun i => v.getD i 0).getD k 0) 2).filter
        (fun k => decide (3 / 1000 * listMax (v.map fun a => c * a) ≤
          (promData ((validIndices.map fun i => v.getD i 0).map fun a => c * a) k
            none).prom))
      = (selectByPeakDistance (localMaxima (validIndices.map fun i => v.getD i 0))
          ((localMaxima (validIndices.map fun i => v.getD i 0)).map fun k =>
            (validIndices.map fun i => v.getD i 0).getD k 0) 2).filter
          (fun k => decide (3 / 1000 * listMax v ≤
            (promData (validIndices.map fun i => v.getD i 0) k none).prom)) := by
    refine List.filter_congr fun k _ => ?_
    rw [promData_map_mul c hc, listMax_map_mul c hc.le]
    dsimp only
    rw [decide_eq_decide]
    rw [show (3 : ℚ) / 1000 * (c * listMax v) = c * (3 / 1000 * listMax v) by ring]
    exact mul_le_mul_left hc
  rw [hfil]

/-- C4: the estimator gives the same outcome — the same accept/reject
decision, thickness and quality score — on c·v as on v, for every c > 0. -/
theorem c4_scale_invariance (v : List ℚ) (c : ℚ) (hc : 0 < c) :
    processFFTToThickness (v.map fun a => c * a) = processFFTToThickness v := by
  unfold processFFTToThickness
  by_cases h1 : v = []
  · rw [if_pos h1, if_pos (by rw [h1]; rfl)]
  · rw [if_neg h1, if_neg (fun hcon => h1 (List.map_eq_nil_iff.mp hcon))]
    by_cases h2 : validIndices = []
    · rw [if_pos h2, if_pos h2]
    · rw [if_neg h2, if_neg h2]
      rw [serverPeaks_map_mul c hc]
      rcases serverPeaks v with _ | ⟨p1, _ | ⟨p2, _ | r⟩⟩ <;> dsimp only
      rw [getD_map_mul, getD_map_mul]
      by_cases h3 : v.getD p1 0 ≤ v.getD p2 0
      · rw [if_pos h3, if_pos ((mul_le_mul_left hc).mpr h3)]
      · rw [if_neg h3, if_neg (fun hcon => h3 ((mul_le_mul_left hc).mp hcon))]
        have hiff : 0 < c * v.getD p2 0 ↔ 0 < v.getD p2 0 := by
          constructor
          · intro h
            nlinarith
          · intro h
            exact mul_pos hc h
        by_cases h4 : 0 < v.getD p2 0
        · rw [if_pos h4, if_pos (hiff.mpr h4)]
          rw [mul_div_mul_left _ _ hc.ne']
        · rw [if_neg h4, if_neg (fun hcon => h4 (hiff.mp hcon))]


/-- A concrete spectrum for the C4 witness. -/
def c4Vector : List ℚ :=
  (List.range 53).map fun i => if i = 25 then 60 else if i = 45 then 30 else 0

/-- Witness for C4 at the concrete input `c4Vector` with scale factor 2. -/
theorem c4_scale_invariance_witness :
    0 < (2 : ℚ) ∧ processFFTToThickness (c4Vector.map fun a => 2 * a)
      = processFFTToThickness c4Vector :=
  ⟨by norm_num, c4_scale_invariance c4Vector 2 (by norm_num)⟩

end SnowAngel
